import Mathlib

/-!
Verification of the CKB DAG-spawn test program (`spawn_dag.c`) and its
escape codec (`spawn_dag_escape_encoding.h`).

Machine integers are modelled as `Nat` with explicit `% 256` where the C
code performs wrapping `uint8_t` arithmetic.  Byte buffers are `List Nat`
whose elements are below 256 (carried as a hypothesis where it matters).
C out-parameters become components of the returned value; fallible C
functions returning an `int` error code become `Except Nat`.
-/

namespace SpawnDag

/-! ### Constants from `spawn_dag.c` and `spawn_dag_escape_encoding.h` -/

def MAX_PIPE_COUNT : Nat := 3200
def MAX_SPAWNED_VMS : Nat := 1024
def ERROR_NO_SPACE_FOR_PIPES : Nat := 43
def ERROR_NOT_FOUND : Nat := 44
def ERROR_ENCODING : Nat := 45
def ERROR_ARGV : Nat := 46
def ERROR_TOO_MANY_SPAWNS : Nat := 47
def ERROR_PIPE_CLOSED : Nat := 48
def ERROR_CORRUPTED_DATA : Nat := 49
def ESCAPE_ERROR_ENCODING : Nat := 1

/-! ### Escape codec (`spawn_dag_escape_encoding.h`)

`ee_encode`, `ee_decode` operate on byte buffers with explicit destination
capacity `dl`; the C functions report through `*dst_length` and
`*src_length` how many bytes were written and consumed.  The loop is
embedded as structural recursion over the remaining source suffix,
threading the destination cursor `ds`. -/

def ee_maximum_encoding_length (length : Nat) : Nat := length * 2

/-- Loop of `ee_encode`: returns the bytes written and the number of
source bytes consumed.  `src[ss] - 1` on `uint8_t` is `(b + 255) % 256`. -/
def ee_encodeGo : List Nat → Nat → Nat → List Nat × Nat
  | [], _, _ => ([], 0)
  | b :: rest, ds, dl =>
    if ds < dl then
      if b = 0 ∨ b = 0xFE then
        if ds + 1 ≥ dl then ([], 0)
        else
          let r := ee_encodeGo rest (ds + 2) dl
          (0xFE :: (b + 255) % 256 :: r.1, r.2 + 1)
      else
        let r := ee_encodeGo rest (ds + 1) dl
        (b :: r.1, r.2 + 1)
    else ([], 0)

structure EncodeResult where
  dst : List Nat
  dst_length : Nat
  src_length : Nat
  ret : Nat
deriving Repr, DecidableEq

/-- `ee_encode` with destination capacity `dl`: always returns 0; the
out-parameters `*dst_length` and `*src_length` are the written and
consumed counts. -/
def ee_encode (dl : Nat) (src : List Nat) : EncodeResult :=
  let r := ee_encodeGo src 0 dl
  ⟨r.1, r.1.length, r.2, 0⟩

/-- Loop of `ee_decode`: `Except` error `ESCAPE_ERROR_ENCODING` models the
early `return` on a dangling escape byte (`Except.map` propagates the
error of the rest of the loop unchanged, as the early `return ret` does).
On success returns the bytes written and the number of source bytes
consumed.  `src[ss + 1] + 1` on `uint8_t` is `(b2 + 1) % 256`. -/
def ee_decodeGo : List Nat → Nat → Nat → Except Nat (List Nat × Nat)
  | [], _, _ => .ok ([], 0)
  | b :: rest, ds, dl =>
    if ds < dl then
      if b = 0xFE then
        match rest with
        | [] => .error ESCAPE_ERROR_ENCODING
        | b2 :: rest2 =>
          (ee_decodeGo rest2 (ds + 1) dl).map fun r => ((b2 + 1) % 256 :: r.1, r.2 + 2)
      else
        (ee_decodeGo rest (ds + 1) dl).map fun r => (b :: r.1, r.2 + 1)
    else .ok ([], 0)

/-- `ee_decode` with destination capacity `dl`. -/
def ee_decode (dl : Nat) (src : List Nat) : Except Nat (List Nat × Nat) :=
  ee_decodeGo src 0 dl

/-- `ee_decode_char_string_in_place`: the argument list stands for the
bytes of the NUL-terminated string strictly before its terminator (hence
lists representing genuine C strings contain no 0).  The C check
`buf[ss + 1] == 0` is reaching the terminator right after an escape
byte, i.e. the rest of the list being empty.  In-place writing is safe
because the destination cursor never passes the source cursor, so the
decoder is a pure function of the string contents. -/
def ee_decode_char_string_in_place : List Nat → Except Nat (List Nat)
  | [] => .ok []
  | b :: rest =>
    if b = 0xFE then
      match rest with
      | [] => .error ESCAPE_ERROR_ENCODING
      | b2 :: rest2 =>
        (ee_decode_char_string_in_place rest2).map fun w => (b2 + 1) % 256 :: w
    else
      (ee_decode_char_string_in_place rest).map fun w => b :: w

/-! ### Codec lemmas -/

/-- The byte string `ee_encode` produces when capacity suffices. -/
def encBytes : List Nat → List Nat
  | [] => []
  | b :: rest =>
    if b = 0 ∨ b = 0xFE then 0xFE :: (b + 255) % 256 :: encBytes rest
    else b :: encBytes rest

theorem encBytes_length_le (x : List Nat) : (encBytes x).length ≤ 2 * x.length := by
  induction x with
  | nil => simp [encBytes]
  | cons b rest ih =>
    by_cases hb : b = 0 ∨ b = 0xFE <;> simp [encBytes, hb] <;> omega

theorem ee_encodeGo_complete (x : List Nat) :
    ∀ ds dl, ds + 2 * x.length ≤ dl →
      ee_encodeGo x ds dl = (encBytes x, x.length) := by
  induction x with
  | nil => intro ds dl _; simp [ee_encodeGo, encBytes]
  | cons b rest ih =>
    intro ds dl h
    have hds : ds < dl := by simp at h; omega
    by_cases hb : b = 0 ∨ b = 0xFE
    · have hcap : ¬ (ds + 1 ≥ dl) := by simp at h ⊢; omega
      have hrec := ih (ds + 2) dl (by simp at h ⊢; omega)
      simp [ee_encodeGo, hds, hb, hcap, hrec, encBytes]
    · have hrec := ih (ds + 1) dl (by simp at h ⊢; omega)
      simp [ee_encodeGo, hds, hb, hrec, encBytes]

theorem ee_decodeGo_encBytes (x : List Nat) (hx : ∀ b ∈ x, b < 256) :
    ∀ ds dl, ds + x.length ≤ dl →
      ee_decodeGo (encBytes x) ds dl = .ok (x, (encBytes x).length) := by
  induction x with
  | nil => intro ds dl _; simp [encBytes, ee_decodeGo]
  | cons b rest ih =>
    intro ds dl h
    have hb256 : b < 256 := hx b (by simp)
    have hxrest : ∀ c ∈ rest, c < 256 := fun c hc => hx c (by simp [hc])
    have hds : ds < dl := by simp at h; omega
    have hrec := ih hxrest (ds + 1) dl (by simp at h ⊢; omega)
    by_cases hb : b = 0 ∨ b = 0xFE
    · have hne : (b + 255) % 256 ≠ 0xFE := by
        rcases hb with rfl | rfl <;> decide
      have hval : ((b + 255) % 256 + 1) % 256 = b := by omega
      simp [encBytes, hb, ee_decodeGo, hds, hrec, hval, Except.map]
    · have hbne : b ≠ 0xFE := fun hc => hb (Or.inr hc)
      have hb0 : b ≠ 0 := fun hc => hb (Or.inl hc)
      have hgoal : encBytes (b :: rest) = b :: encBytes rest := by
        simp [encBytes, hb0, hbne]
      rw [hgoal, ee_decodeGo.eq_def]
      simp [hds, hbne, hrec, Except.map]

/-- C1: Escape Codec round-trip.  For every byte sequence `x`, invoking
`ee_encode` with destination capacity at least `2 * len(x)` consumes all
of `x` (and returns 0), and invoking `ee_decode` with destination
capacity at least `len(x)` on exactly the produced bytes returns 0,
consumes all of them and writes back exactly `x`. -/
theorem ee_round_trip (x : List Nat) (hx : ∀ b ∈ x, b < 256)
    (dl : Nat) (hdl : 2 * x.length ≤ dl) (dl2 : Nat) (hdl2 : x.length ≤ dl2) :
    (ee_encode dl x).src_length = x.length ∧ (ee_encode dl x).ret = 0 ∧
    ee_decode dl2 (ee_encode dl x).dst =
      .ok (x, (ee_encode dl x).dst.length) := by
  have henc := ee_encodeGo_complete x 0 dl (by omega)
  have hdec := ee_decodeGo_encBytes x hx 0 dl2 (by omega)
  simp [ee_encode, ee_decode, henc, hdec]

theorem ee_round_trip_witness :
    (∀ b ∈ [0, 0xFE, 65], b < 256) ∧ (2 * 3 ≤ 6) ∧ (3 ≤ 3) ∧
    ((ee_encode 6 [0, 0xFE, 65]).src_length = 3 ∧
     (ee_encode 6 [0, 0xFE, 65]).ret = 0 ∧
     ee_decode 3 (ee_encode 6 [0, 0xFE, 65]).dst =
       .ok ([0, 0xFE, 65], (ee_encode 6 [0, 0xFE, 65]).dst.length)) :=
  ⟨by decide, by decide, by decide,
   ee_round_trip [0, 0xFE, 65] (by decide) 6 (by decide) 3 (by decide)⟩

/-! ### Failure characterization of the two decoders (C7) -/

/-- The decode loop of `ee_decode` reaches a `0xFE` byte that is not
followed by another byte before end-of-buffer.  Only positions the loop
actually processes count: the loop stops once the destination capacity
`dl` is exhausted. -/
def decodeHitsLoneEscape : List Nat → Nat → Nat → Bool
  | [], _, _ => false
  | b :: rest, ds, dl =>
    if ds < dl then
      if b = 0xFE then
        match rest with
        | [] => true
        | _ :: rest2 => decodeHitsLoneEscape rest2 (ds + 1) dl
      else decodeHitsLoneEscape rest (ds + 1) dl
    else false

/-- The traversal of `ee_decode_char_string_in_place` reaches a `0xFE`
byte immediately before the NUL terminator. -/
def stringHitsLoneEscape : List Nat → Bool
  | [] => false
  | b :: rest =>
    if b = 0xFE then
      match rest with
      | [] => true
      | _ :: rest2 => stringHitsLoneEscape rest2
    else stringHitsLoneEscape rest

theorem ee_decodeGo_dichotomy (src : List Nat) (ds dl : Nat) :
    (decodeHitsLoneEscape src ds dl = true ∧
       ee_decodeGo src ds dl = .error ESCAPE_ERROR_ENCODING) ∨
    (decodeHitsLoneEscape src ds dl = false ∧
       ∃ r, ee_decodeGo src ds dl = Except.ok r) := by
  induction src, ds, dl using ee_decodeGo.induct with
  | case1 ds dl => right; simp [decodeHitsLoneEscape, ee_decodeGo]
  | case2 ds dl hds =>
    left
    rw [decodeHitsLoneEscape.eq_def, ee_decodeGo.eq_def]
    simp [hds]
  | case3 ds dl hds b2 rest2 ih =>
    rcases ih with ⟨h1, h2⟩ | ⟨h1, r, h2⟩
    · left
      rw [decodeHitsLoneEscape.eq_def, ee_decodeGo.eq_def]
      simp [hds, h1, h2, Except.map]
    · right
      rw [decodeHitsLoneEscape.eq_def, ee_decodeGo.eq_def]
      simp [hds, h1, h2, Except.map]
  | case4 b rest ds dl hds hb ih =>
    rcases ih with ⟨h1, h2⟩ | ⟨h1, r, h2⟩
    · left
      rw [decodeHitsLoneEscape.eq_def, ee_decodeGo.eq_def]
      simp [hds, hb, h1, h2, Except.map]
    · right
      rw [decodeHitsLoneEscape.eq_def, ee_decodeGo.eq_def]
      simp [hds, hb, h1, h2, Except.map]
  | case5 b rest ds dl hds =>
    right
    rw [decodeHitsLoneEscape.eq_def, ee_decodeGo.eq_def]
    simp [hds]

theorem ee_decode_string_dichotomy (s : List Nat) :
    (stringHitsLoneEscape s = true ∧
       ee_decode_char_string_in_place s = .error ESCAPE_ERROR_ENCODING) ∨
    (stringHitsLoneEscape s = false ∧
       ∃ w, ee_decode_char_string_in_place s = Except.ok w) := by
  induction s using ee_decode_char_string_in_place.induct with
  | case1 => right; simp [stringHitsLoneEscape, ee_decode_char_string_in_place]
  | case2 =>
    left
    rw [stringHitsLoneEscape.eq_def, ee_decode_char_string_in_place.eq_def]
    simp
  | case3 b2 rest2 ih =>
    rcases ih with ⟨h1, h2⟩ | ⟨h1, w, h2⟩
    · left
      rw [stringHitsLoneEscape.eq_def, ee_decode_char_string_in_place.eq_def]
      simp [h1, h2, Except.map]
    · right
      rw [stringHitsLoneEscape.eq_def, ee_decode_char_string_in_place.eq_def]
      simp [h1, h2, Except.map]
  | case4 b rest hb ih =>
    rcases ih with ⟨h1, h2⟩ | ⟨h1, w, h2⟩
    · left
      rw [stringHitsLoneEscape.eq_def, ee_decode_char_string_in_place.eq_def]
      simp [hb, h1, h2, Except.map]
    · right
      rw [stringHitsLoneEscape.eq_def, ee_decode_char_string_in_place.eq_def]
      simp [hb, h1, h2, Except.map]

/-- C7: `ee_decode` and `ee_decode_char_string_in_place` fail with the
escape-encoding error exactly when a `0xFE` byte is reached (at a
position the decode loop processes) that is not followed by another byte
before end-of-buffer (byte form) resp. before the NUL terminator (string
form); otherwise they return 0 (success). -/
theorem ee_decode_error_characterization (src : List Nat) (dl : Nat)
    (s : List Nat) (h0 : 0 ∉ s) :
    (ee_decode dl src = .error ESCAPE_ERROR_ENCODING ↔
       decodeHitsLoneEscape src 0 dl = true) ∧
    ((∃ r, ee_decode dl src = Except.ok r) ↔
       decodeHitsLoneEscape src 0 dl = false) ∧
    (ee_decode_char_string_in_place s = .error ESCAPE_ERROR_ENCODING ↔
       stringHitsLoneEscape s = true) ∧
    ((∃ w, ee_decode_char_string_in_place s = Except.ok w) ↔
       stringHitsLoneEscape s = false) := by
  rcases ee_decodeGo_dichotomy src 0 dl with ⟨h1, h2⟩ | ⟨h1, r, h2⟩ <;>
  rcases ee_decode_string_dichotomy s with ⟨g1, g2⟩ | ⟨g1, w, g2⟩ <;>
    simp_all [ee_decode]

theorem ee_decode_error_characterization_witness :
    ((0 : Nat) ∉ [(0xFE : Nat)]) ∧
    ((ee_decode 1 [0xFE] = .error ESCAPE_ERROR_ENCODING ↔
        decodeHitsLoneEscape [0xFE] 0 1 = true) ∧
     ((∃ r, ee_decode 1 [0xFE] = Except.ok r) ↔
        decodeHitsLoneEscape [0xFE] 0 1 = false) ∧
     (ee_decode_char_string_in_place [0xFE] = .error ESCAPE_ERROR_ENCODING ↔
        stringHitsLoneEscape [0xFE] = true) ∧
     ((∃ w, ee_decode_char_string_in_place [0xFE] = Except.ok w) ↔
        stringHitsLoneEscape [0xFE] = false)) :=
  ⟨by decide, ee_decode_error_characterization [0xFE] 1 [0xFE] (by decide)⟩

/-! ### Pipe registry (`pipes_t`, `pipes_init`, `pipes_add`, `pipes_find`)

The C arrays `indices[MAX_PIPE_COUNT]` and `ids[MAX_PIPE_COUNT + 1]` are
modelled as total functions `Nat → Nat`; only the region below `used`
(plus `ids used`) is ever read by the program. -/

structure pipes_t where
  indices : Nat → Nat
  ids : Nat → Nat
  used : Nat

/-- `pipes_init`: sets `used = 0` and `ids[used] = 0`; all other slots
keep whatever the uninitialized local variable held. -/
def pipes_init (p : pipes_t) : pipes_t :=
  { p with used := 0, ids := fun i => if i = 0 then 0 else p.ids i }

/-- `pipes_add`: fails with `ERROR_NO_SPACE_FOR_PIPES` when the registry
is full; otherwise stores `index`/`id` at slot `used`, increments `used`
and re-establishes the 0 terminator at the new `used`. -/
def pipes_add (p : pipes_t) (index id : Nat) : Except Nat pipes_t :=
  if MAX_PIPE_COUNT ≤ p.used then .error ERROR_NO_SPACE_FOR_PIPES
  else .ok
    { indices := fun i => if i = p.used then index else p.indices i,
      ids := fun i => if i = p.used then id else if i = p.used + 1 then 0 else p.ids i,
      used := p.used + 1 }

/-- Loop of `pipes_find`, scanning slots `i, i+1, …` while `i < used`;
the remaining iteration count `used - i` is the structural fuel. -/
def pipes_findLoop (indices ids : Nat → Nat) (index : Nat) : Nat → Nat → Except Nat Nat
  | _, 0 => .error ERROR_NOT_FOUND
  | i, fuel + 1 =>
    if indices i = index then .ok (ids i)
    else pipes_findLoop indices ids index (i + 1) fuel

/-- `pipes_find`: linear scan of the first `used` slots for `index`,
returning the stored id of the first hit, else `ERROR_NOT_FOUND`. -/
def pipes_find (p : pipes_t) (index : Nat) : Except Nat Nat :=
  pipes_findLoop p.indices p.ids index 0 p.used

theorem pipes_findLoop_not_found (indices ids : Nat → Nat) (index : Nat) :
    ∀ fuel i, pipes_findLoop indices ids index i fuel = .error ERROR_NOT_FOUND ↔
      ∀ k < fuel, indices (i + k) ≠ index := by
  intro fuel
  induction fuel with
  | zero => intro i; simp [pipes_findLoop]
  | succ fuel ih =>
    intro i
    by_cases hhit : indices i = index
    · simp only [pipes_findLoop, if_pos hhit]
      constructor
      · intro h; simp at h
      · intro h; exact absurd hhit (by simpa using h 0 (by omega))
    · simp only [pipes_findLoop, if_neg hhit, ih (i + 1)]
      constructor
      · intro h k hk
        match k with
        | 0 => simpa using hhit
        | k + 1 =>
          have := h k (by omega)
          have harr : i + 1 + k = i + (k + 1) := by omega
          rwa [harr] at this
      · intro h k hk
        have := h (k + 1) (by omega)
        have harr : i + (k + 1) = i + 1 + k := by omega
        rwa [harr] at this

theorem pipes_findLoop_ok (indices ids : Nat → Nat) (index : Nat) :
    ∀ fuel i h, pipes_findLoop indices ids index i fuel = .ok h →
      ∃ k < fuel, indices (i + k) = index ∧ ids (i + k) = h := by
  intro fuel
  induction fuel with
  | zero => intro i h hok; simp [pipes_findLoop] at hok
  | succ fuel ih =>
    intro i h hok
    by_cases hhit : indices i = index
    · refine ⟨0, by omega, by simpa using hhit, ?_⟩
      simp [pipes_findLoop, hhit] at hok
      simpa using hok
    · rw [pipes_findLoop] at hok
      simp only [hhit, if_false] at hok
      obtain ⟨k, hk, h1, h2⟩ := ih (i + 1) h hok
      exact ⟨k + 1, by omega, by simpa [Nat.add_comm, Nat.add_left_comm] using h1,
        by simpa [Nat.add_comm, Nat.add_left_comm] using h2⟩

theorem pipes_findLoop_error_value (indices ids : Nat → Nat) (index : Nat) :
    ∀ fuel i e, pipes_findLoop indices ids index i fuel = .error e →
      e = ERROR_NOT_FOUND := by
  intro fuel
  induction fuel with
  | zero => intro i e he; simp [pipes_findLoop] at he; omega
  | succ fuel ih =>
    intro i e he
    by_cases hhit : indices i = index
    · simp [pipes_findLoop, hhit] at he
    · rw [pipes_findLoop] at he
      simp only [hhit, if_false] at he
      exact ih (i + 1) e he

/-- C8: pipe-registry contract.  `pipes_add` returns the no-space error
exactly when the registry already holds `MAX_PIPE_COUNT` entries, and
otherwise appends the `(index, id)` association (preserving all existing
entries) and succeeds.  `pipes_find` returns `ERROR_NOT_FOUND` exactly
when no stored entry has the queried index (and that is its only error),
and otherwise returns a handle stored for that index. -/
theorem pipes_registry_contract (p : pipes_t) (index id : Nat) :
    (pipes_add p index id = .error ERROR_NO_SPACE_FOR_PIPES ↔
       MAX_PIPE_COUNT ≤ p.used) ∧
    (p.used < MAX_PIPE_COUNT → ∃ p', pipes_add p index id = .ok p' ∧
       p'.used = p.used + 1 ∧ p'.indices p.used = index ∧ p'.ids p.used = id ∧
       ∀ j < p.used, p'.indices j = p.indices j ∧ p'.ids j = p.ids j) ∧
    (pipes_find p index = .error ERROR_NOT_FOUND ↔
       ∀ j < p.used, p.indices j ≠ index) ∧
    (∀ e, pipes_find p index = .error e → e = ERROR_NOT_FOUND) ∧
    (∀ h, pipes_find p index = .ok h →
       ∃ j < p.used, p.indices j = index ∧ p.ids j = h) := by
  refine ⟨?_, ?_, ?_, ?_, ?_⟩
  · by_cases hcap : MAX_PIPE_COUNT ≤ p.used <;> simp [pipes_add, hcap]
  · intro hcap
    have hlt : ¬ MAX_PIPE_COUNT ≤ p.used := by omega
    refine ⟨{ indices := fun i => if i = p.used then index else p.indices i,
              ids := fun i =>
                if i = p.used then id else if i = p.used + 1 then 0 else p.ids i,
              used := p.used + 1 },
      by simp [pipes_add, hlt], rfl, by simp, by simp, ?_⟩
    intro j hj
    exact ⟨by simp [show j ≠ p.used by omega],
           by simp [show j ≠ p.used by omega, show j ≠ p.used + 1 by omega]⟩
  · have := pipes_findLoop_not_found p.indices p.ids index p.used 0
    simpa [pipes_find] using this
  · intro e he
    exact pipes_findLoop_error_value p.indices p.ids index p.used 0 e he
  · intro h hok
    have := pipes_findLoop_ok p.indices p.ids index p.used 0 h hok
    simpa using this

theorem pipes_registry_contract_witness :
    ((⟨fun _ => 7, fun _ => 9, 1⟩ : pipes_t).used < MAX_PIPE_COUNT) ∧
    (∃ p', pipes_add ⟨fun _ => 7, fun _ => 9, 1⟩ 5 6 = .ok p' ∧
       p'.used = 1 + 1 ∧ p'.indices 1 = 5 ∧ p'.ids 1 = 6 ∧
       ∀ j < 1, p'.indices j = (⟨fun _ => 7, fun _ => 9, 1⟩ : pipes_t).indices j ∧
         p'.ids j = (⟨fun _ => 7, fun _ => 9, 1⟩ : pipes_t).ids j) ∧
    pipes_find ⟨fun _ => 7, fun _ => 9, 1⟩ 7 = .ok 9 ∧
    (∃ j < (1 : Nat), (⟨fun _ => 7, fun _ => 9, 1⟩ : pipes_t).indices j = 7 ∧
       (⟨fun _ => 7, fun _ => 9, 1⟩ : pipes_t).ids j = 9) :=
  ⟨by decide,
   (pipes_registry_contract ⟨fun _ => 7, fun _ => 9, 1⟩ 5 6).2.1 (by decide),
   by rfl,
   (pipes_registry_contract ⟨fun _ => 7, fun _ => 9, 1⟩ 7 0).2.2.2.2 9 (by rfl)⟩

/-! ### Graph descriptor entries

The molecule-parsed `Data` buffer exposes three vectors; each element the
executor reads is embedded as a structure of the `uint64_t` fields (and
raw payload bytes) the C code extracts from the corresponding table. -/

structure SpawnEntry where
  fromVm : Nat
  child : Nat
  pipes : List Nat

structure PipeEntry where
  vm : Nat
  read_pipe : Nat
  write_pipe : Nat

structure WriteEntry where
  fromVm : Nat
  from_pipe : Nat
  toVm : Nat
  to_pipe : Nat
  data : List Nat

structure Data where
  spawns : List SpawnEntry
  pipes : List PipeEntry
  writes : List WriteEntry

/-- The 8 little-endian bytes of a `uint64_t` value in memory. -/
def u64_le_bytes (v : Nat) : List Nat :=
  (List.range 8).map fun i => v / 256 ^ i % 256

/-- Reading a `uint64_t` back from 8 little-endian bytes
(`*((uint64_t *)ptr)` on RISC-V). -/
def u64_from_le (bs : List Nat) : Nat :=
  bs.foldr (fun b acc => b + 256 * acc) 0

/-- The byte buffer `(const uint8_t *)passed_pipes.ids` of length
`used * 8`: the first `used` ids, each as 8 little-endian bytes. -/
def pipesIdsBytes (p : pipes_t) : List Nat :=
  ((List.range p.used).map p.ids).foldr (fun v acc => u64_le_bytes v ++ acc) []

/-- The ids array region `ids[0 .. used]` (`used + 1` entries, the last
being the 0 terminator by the registry invariant) handed to the spawn
syscall as `inherited_fds`. -/
def pipesInheritedFds (p : pipes_t) : List Nat :=
  (List.range (p.used + 1)).map p.ids

/-! ### Node executor: spawn phase (`spawn_dag.c`, lines 169-250)

External syscalls are modelled by oracles supplying their results, and
each syscall actually issued is recorded in a returned trace. -/

/-- Executor state threaded through the spawn loop. -/
structure ExecState where
  current_pipes : pipes_t
  spawned_vms : List Nat
  spawned_count : Nat

/-- One issued `ckb_spawn` syscall: the two escape-encoded argument
strings, the inherited-fd list and the child index being spawned. -/
structure SpawnCall where
  argv0 : List Nat
  argv1 : List Nat
  inherited_fds : List Nat
  child : Nat

/-- The uninitialized local `pipes_t passed_pipes` before `pipes_init`;
only fields `pipes_init` sets are ever read, so zeros stand in for the
indeterminate stack contents. -/
def pipesScratch : pipes_t := { indices := fun _ => 0, ids := fun _ => 0, used := 0 }

/-- The per-spawn-entry loop over `visiblePipes` (lines 193-216):
`pipes_find` each index in `current_pipes`, `pipes_add` it to
`passed_pipes`, propagating the first error. -/
def resolvePipes (current : pipes_t) : List Nat → pipes_t → Except Nat pipes_t
  | [], passed => .ok passed
  | index :: rest, passed =>
    match pipes_find current index with
    | .error e => .error e
    | .ok id =>
      match pipes_add passed index id with
      | .error e => .error e
      | .ok passed2 => resolvePipes current rest passed2

/-- Processing of one entry of `Data.spawns` by the spawn loop (lines
173-249).  `spawnResult` is the `ckb_spawn` oracle: its return code and
the process id written through `sargs.process_id`.  The second component
lists the spawn syscalls issued while processing this entry. -/
def processSpawnEntry (vm_index : Nat) (st : ExecState) (entry : SpawnEntry)
    (spawnResult : Nat × Nat) : Except Nat ExecState × List SpawnCall :=
  if entry.fromVm = vm_index then
    if MAX_SPAWNED_VMS ≤ st.spawned_count then (.error ERROR_TOO_MANY_SPAWNS, [])
    else
      match resolvePipes st.current_pipes entry.pipes (pipes_init pipesScratch) with
      | .error e => (.error e, [])
      | .ok passed =>
        let enc0 := ee_encode (ee_maximum_encoding_length 8) (u64_le_bytes entry.child)
        let enc1 := ee_encode (ee_maximum_encoding_length (passed.used * 8))
          (pipesIdsBytes passed)
        let call : SpawnCall :=
          { argv0 := enc0.dst, argv1 := enc1.dst,
            inherited_fds := pipesInheritedFds passed, child := entry.child }
        if spawnResult.1 ≠ 0 then (.error spawnResult.1, [call])
        else
          (.ok { st with spawned_vms := st.spawned_vms ++ [spawnResult.2],
                         spawned_count := st.spawned_count + 1 }, [call])
  else (.ok st, [])

/-- C3: once a node has already recorded the maximum number of spawned
children, processing one further spawn entry whose `fromNode` equals this
node returns `ERROR_TOO_MANY_SPAWNS`, and the spawn primitive is not
invoked for that attempt (empty syscall trace). -/
theorem spawn_ceiling (vm : Nat) (st : ExecState) (entry : SpawnEntry)
    (r : Nat × Nat) (hfrom : entry.fromVm = vm)
    (hcap : MAX_SPAWNED_VMS ≤ st.spawned_count) :
    processSpawnEntry vm st entry r = (.error ERROR_TOO_MANY_SPAWNS, []) := by
  simp [processSpawnEntry, hfrom, hcap]

theorem spawn_ceiling_witness :
    (((⟨pipesScratch, [], 1024⟩ : ExecState).spawned_count ≥ MAX_SPAWNED_VMS) ∧
     (⟨(0 : Nat), 3, []⟩ : SpawnEntry).fromVm = 0) ∧
    processSpawnEntry 0 ⟨pipesScratch, [], 1024⟩ ⟨0, 3, []⟩ (0, 0) =
      (.error ERROR_TOO_MANY_SPAWNS, []) :=
  ⟨⟨by decide, rfl⟩, spawn_ceiling 0 ⟨pipesScratch, [], 1024⟩ ⟨0, 3, []⟩ (0, 0) rfl (by decide)⟩

/-! ### The ids-array zero-terminator invariant (C9) -/

/-- Registry states the program can build: `pipes_init` of an arbitrary
(uninitialized) local, followed by any number of successful
`pipes_add`s. -/
inductive pipesReached : pipes_t → Prop
  | init (p : pipes_t) : pipesReached (pipes_init p)
  | add (p : pipes_t) (index id : Nat) (p2 : pipes_t) (hp : pipesReached p)
      (hadd : pipes_add p index id = .ok p2) : pipesReached p2

theorem pipesReached_ids_zero (p : pipes_t) (hp : pipesReached p) :
    p.ids p.used = 0 := by
  induction hp with
  | init q => simp [pipes_init]
  | add q index id q2 hq hadd ih =>
    by_cases hcap : MAX_PIPE_COUNT ≤ q.used
    · simp [pipes_add, hcap] at hadd
    · simp [pipes_add, hcap] at hadd
      rw [← hadd]
      simp

theorem resolvePipes_reached (current : pipes_t) :
    ∀ (idxs : List Nat) (passed p2 : pipes_t), pipesReached passed →
      resolvePipes current idxs passed = .ok p2 → pipesReached p2 := by
  intro idxs
  induction idxs with
  | nil =>
    intro passed p2 hp h
    simp [resolvePipes] at h
    rwa [← h]
  | cons index rest ih =>
    intro passed p2 hp h
    simp only [resolvePipes] at h
    cases hfind : pipes_find current index with
    | error e => rw [hfind] at h; simp at h
    | ok id =>
      rw [hfind] at h
      dsimp only at h
      cases hadd : pipes_add passed index id with
      | error e => rw [hadd] at h; simp at h
      | ok passed2 =>
        rw [hadd] at h
        exact ih passed2 p2 (pipesReached.add _ _ _ _ hp hadd) h

theorem pipesInheritedFds_shape (p : pipes_t) (hz : p.ids p.used = 0) :
    (pipesInheritedFds p).length = p.used + 1 ∧
    (pipesInheritedFds p).getLast? = some 0 := by
  constructor
  · simp [pipesInheritedFds]
  · simp [pipesInheritedFds, List.range_succ, hz]

theorem processSpawnEntry_call_registry (vm : Nat) (st : ExecState)
    (entry : SpawnEntry) (r : Nat × Nat) (call : SpawnCall)
    (hcall : call ∈ (processSpawnEntry vm st entry r).2) :
    ∃ passed, pipesReached passed ∧
      call.inherited_fds = pipesInheritedFds passed := by
  by_cases hfrom : entry.fromVm = vm
  · by_cases hcap : MAX_SPAWNED_VMS ≤ st.spawned_count
    · simp [processSpawnEntry, hfrom, hcap] at hcall
    · cases hres : resolvePipes st.current_pipes entry.pipes (pipes_init pipesScratch) with
      | error e => simp [processSpawnEntry, hfrom, hcap, hres] at hcall
      | ok passed =>
        refine ⟨passed,
          resolvePipes_reached _ _ _ _ (pipesReached.init _) hres, ?_⟩
        by_cases hr : r.1 ≠ 0 <;>
          simp [processSpawnEntry, hfrom, hcap, hres, hr] at hcall <;>
          rw [hcall]
  · simp [processSpawnEntry, hfrom] at hcall

/-- C9: after `pipes_init` and after every successful `pipes_add`, the
ids array entry at position `used` equals 0; consequently every handle
array a spawn syscall receives as its inherited-resource list consists of
the `used` valid handles of a reachable registry followed immediately by
a 0 entry. -/
theorem inherited_fds_zero_terminated :
    (∀ p, pipesReached p → p.ids p.used = 0) ∧
    (∀ vm st entry r call, call ∈ (processSpawnEntry vm st entry r).2 →
       ∃ passed, pipesReached passed ∧
         call.inherited_fds = pipesInheritedFds passed ∧
         call.inherited_fds.length = passed.used + 1 ∧
         call.inherited_fds.getLast? = some 0) := by
  refine ⟨pipesReached_ids_zero, ?_⟩
  intro vm st entry r call hcall
  obtain ⟨passed, hreach, hfds⟩ :=
    processSpawnEntry_call_registry vm st entry r call hcall
  have hz := pipesReached_ids_zero passed hreach
  have hshape := pipesInheritedFds_shape passed hz
  exact ⟨passed, hreach, hfds, by rw [hfds]; exact hshape.1, by rw [hfds]; exact hshape.2⟩

theorem inherited_fds_zero_terminated_witness :
    (pipesReached (pipes_init pipesScratch) ∧
     (pipes_init pipesScratch).ids (pipes_init pipesScratch).used = 0) ∧
    ((⟨[1, 254, 255, 254, 255, 254, 255, 254, 255, 254, 255, 254, 255, 254, 255],
       [], [0], 1⟩ : SpawnCall) ∈
        (processSpawnEntry 0 ⟨pipesScratch, [], 0⟩ ⟨0, 1, []⟩ (0, 5)).2 ∧
     ∃ passed, pipesReached passed ∧
       ([0] : List Nat) = pipesInheritedFds passed ∧
       ([0] : List Nat).length = passed.used + 1 ∧
       ([0] : List Nat).getLast? = some 0) := by
  have hmem : (⟨[1, 254, 255, 254, 255, 254, 255, 254, 255, 254, 255, 254, 255,
      254, 255], [], [0], 1⟩ : SpawnCall) ∈
      (processSpawnEntry 0 ⟨pipesScratch, [], 0⟩ ⟨0, 1, []⟩ (0, 5)).2 := by
    rw [show (processSpawnEntry 0 ⟨pipesScratch, [], 0⟩ ⟨0, 1, []⟩ (0, 5)).2 =
      [⟨[1, 254, 255, 254, 255, 254, 255, 254, 255, 254, 255, 254, 255, 254, 255],
        [], [0], 1⟩] from rfl]
    exact List.mem_singleton.mpr rfl
  exact ⟨⟨pipesReached.init pipesScratch, inherited_fds_zero_terminated.1 _
      (pipesReached.init pipesScratch)⟩,
    hmem, inherited_fds_zero_terminated.2 0 ⟨pipesScratch, [], 0⟩ ⟨0, 1, []⟩ (0, 5) _ hmem⟩

/-! ### Spawn entries with unresolved visible pipes (C4) -/

theorem pipes_find_error_value (p : pipes_t) (index e : Nat)
    (h : pipes_find p index = .error e) : e = ERROR_NOT_FOUND :=
  pipes_findLoop_error_value p.indices p.ids index p.used 0 e h

theorem pipes_add_ok_used (p : pipes_t) (index id : Nat) (p2 : pipes_t)
    (h : pipes_add p index id = .ok p2) : p2.used = p.used + 1 := by
  by_cases hcap : MAX_PIPE_COUNT ≤ p.used
  · simp [pipes_add, hcap] at h
  · simp [pipes_add, hcap] at h
    rw [← h]

theorem resolvePipes_miss_err (current : pipes_t) :
    ∀ (idxs : List Nat) (passed : pipes_t),
      (∃ idx ∈ idxs, pipes_find current idx = .error ERROR_NOT_FOUND) →
      ∃ e, resolvePipes current idxs passed = .error e := by
  intro idxs
  induction idxs with
  | nil => intro passed h; simp at h
  | cons index rest ih =>
    intro passed h
    cases hfind : pipes_find current index with
    | error e => exact ⟨e, by simp [resolvePipes, hfind]⟩
    | ok id =>
      obtain ⟨idx, hmem, hmiss⟩ := h
      have hrest : idx ∈ rest := by
        rcases List.mem_cons.mp hmem with rfl | hm
        · rw [hfind] at hmiss; simp at hmiss
        · exact hm
      cases hadd : pipes_add passed index id with
      | error e => exact ⟨e, by simp [resolvePipes, hfind, hadd]⟩
      | ok passed2 =>
        obtain ⟨e, he⟩ := ih passed2 ⟨idx, hrest, hmiss⟩
        exact ⟨e, by simp [resolvePipes, hfind, hadd, he]⟩

theorem resolvePipes_miss_not_found (current : pipes_t) :
    ∀ (idxs : List Nat) (passed : pipes_t),
      idxs.length + passed.used ≤ MAX_PIPE_COUNT →
      (∃ idx ∈ idxs, pipes_find current idx = .error ERROR_NOT_FOUND) →
      resolvePipes current idxs passed = .error ERROR_NOT_FOUND := by
  intro idxs
  induction idxs with
  | nil => intro passed _ h; simp at h
  | cons index rest ih =>
    intro passed hlen h
    cases hfind : pipes_find current index with
    | error e =>
      have he := pipes_find_error_value current index e hfind
      rw [he] at hfind
      simp [resolvePipes, hfind]
    | ok id =>
      obtain ⟨idx, hmem, hmiss⟩ := h
      have hrest : idx ∈ rest := by
        rcases List.mem_cons.mp hmem with rfl | hm
        · rw [hfind] at hmiss; simp at hmiss
        · exact hm
      have hlt : ¬ MAX_PIPE_COUNT ≤ passed.used := by
        simp at hlen; omega
      have hadd : pipes_add passed index id = .ok
          { indices := fun i => if i = passed.used then index else passed.indices i,
            ids := fun i => if i = passed.used then id
              else if i = passed.used + 1 then 0 else passed.ids i,
            used := passed.used + 1 } := by
        simp [pipes_add, hlt]
      rw [show resolvePipes current (index :: rest) passed =
        resolvePipes current rest
          { indices := fun i => if i = passed.used then index else passed.indices i,
            ids := fun i => if i = passed.used then id
              else if i = passed.used + 1 then 0 else passed.ids i,
            used := passed.used + 1 } by simp [resolvePipes, hfind, hadd]]
      apply ih
      · simp at hlen ⊢
        omega
      · exact ⟨idx, hrest, hmiss⟩

/-- C4 (amended): a spawn entry of the running node one of whose
`visiblePipes` indices is not present in the registry fails before the
spawn primitive is invoked (empty syscall trace); the error is the
not-found error whenever the entry lists at most `MAX_PIPE_COUNT` pipe
indices (otherwise the per-entry `passed_pipes` registry can overflow at
an earlier index, in which case the no-space error is returned, likewise
without spawning). -/
theorem spawn_unresolved_pipe (vm : Nat) (st : ExecState) (entry : SpawnEntry)
    (r : Nat × Nat) (hfrom : entry.fromVm = vm)
    (hcap : st.spawned_count < MAX_SPAWNED_VMS)
    (hmiss : ∃ idx ∈ entry.pipes,
      pipes_find st.current_pipes idx = .error ERROR_NOT_FOUND) :
    ((∃ e, (processSpawnEntry vm st entry r).1 = .error e) ∧
     (processSpawnEntry vm st entry r).2 = []) ∧
    (entry.pipes.length ≤ MAX_PIPE_COUNT →
       processSpawnEntry vm st entry r = (.error ERROR_NOT_FOUND, [])) := by
  have hc : ¬ MAX_SPAWNED_VMS ≤ st.spawned_count := by omega
  constructor
  · obtain ⟨e, he⟩ := resolvePipes_miss_err st.current_pipes entry.pipes
      (pipes_init pipesScratch) hmiss
    exact ⟨⟨e, by simp [processSpawnEntry, hfrom, hc, he]⟩,
           by simp [processSpawnEntry, hfrom, hc, he]⟩
  · intro hlen
    have hres := resolvePipes_miss_not_found st.current_pipes entry.pipes
      (pipes_init pipesScratch)
      (by simpa [pipes_init, pipesScratch] using hlen) hmiss
    simp [processSpawnEntry, hfrom, hc, hres]

theorem spawn_unresolved_pipe_witness :
    ((⟨(0 : Nat), 1, [6]⟩ : SpawnEntry).fromVm = 0 ∧
     (⟨⟨fun _ => 5, fun _ => 7, 1⟩, [], 0⟩ : ExecState).spawned_count < MAX_SPAWNED_VMS ∧
     (6 ∈ [6] ∧ pipes_find ⟨fun _ => 5, fun _ => 7, 1⟩ 6 = .error ERROR_NOT_FOUND)) ∧
    (((∃ e, (processSpawnEntry 0 ⟨⟨fun _ => 5, fun _ => 7, 1⟩, [], 0⟩
          ⟨0, 1, [6]⟩ (0, 0)).1 = .error e) ∧
      (processSpawnEntry 0 ⟨⟨fun _ => 5, fun _ => 7, 1⟩, [], 0⟩
          ⟨0, 1, [6]⟩ (0, 0)).2 = []) ∧
     (([6] : List Nat).length ≤ MAX_PIPE_COUNT →
        processSpawnEntry 0 ⟨⟨fun _ => 5, fun _ => 7, 1⟩, [], 0⟩
          ⟨0, 1, [6]⟩ (0, 0) = (.error ERROR_NOT_FOUND, []))) :=
  ⟨⟨rfl, by decide, by simp, by rfl⟩,
   spawn_unresolved_pipe 0 ⟨⟨fun _ => 5, fun _ => 7, 1⟩, [], 0⟩ ⟨0, 1, [6]⟩ (0, 0)
     rfl (by decide) ⟨6, by simp, by rfl⟩⟩

theorem resolvePipes_replicate_ok (current : pipes_t) (a aid : Nat)
    (hfind : pipes_find current a = .ok aid) :
    ∀ (n : Nat) (rest : List Nat) (passed : pipes_t),
      passed.used + n ≤ MAX_PIPE_COUNT →
      ∃ passed2, resolvePipes current (List.replicate n a ++ rest) passed =
          resolvePipes current rest passed2 ∧
        passed2.used = passed.used + n := by
  intro n
  induction n with
  | zero => intro rest passed _; exact ⟨passed, by simp, by omega⟩
  | succ n ih =>
    intro rest passed hcap
    have hlt : ¬ MAX_PIPE_COUNT ≤ passed.used := by omega
    have hadd : pipes_add passed a aid = .ok
        { indices := fun i => if i = passed.used then a else passed.indices i,
          ids := fun i => if i = passed.used then aid
            else if i = passed.used + 1 then 0 else passed.ids i,
          used := passed.used + 1 } := by
      simp [pipes_add, hlt]
    obtain ⟨passed2, heq, hused⟩ := ih rest
      { indices := fun i => if i = passed.used then a else passed.indices i,
        ids := fun i => if i = passed.used then aid
          else if i = passed.used + 1 then 0 else passed.ids i,
        used := passed.used + 1 }
      (by simp; omega)
    refine ⟨passed2, ?_, by simp at hused; omega⟩
    rw [List.replicate_succ]
    simp only [List.cons_append]
    rw [show resolvePipes current
        (a :: (List.replicate n a ++ rest)) passed =
      resolvePipes current (List.replicate n a ++ rest)
        { indices := fun i => if i = passed.used then a else passed.indices i,
          ids := fun i => if i = passed.used then aid
            else if i = passed.used + 1 then 0 else passed.ids i,
          used := passed.used + 1 } by simp [resolvePipes, hfind, hadd]]
    exact heq

set_option maxRecDepth 20000 in
/-- Counterexample to C4 as stated: with the registry holding only index
5, the spawn entry listing index 5 a total of 3201 times followed by the
absent index 6 has an unresolvable visible pipe, yet processing it fails
with `ERROR_NO_SPACE_FOR_PIPES` (the per-entry `passed_pipes` registry
overflows first), not with `ERROR_NOT_FOUND`. -/
theorem spawn_unresolved_pipe_cex :
    (6 ∈ (List.replicate 3201 5 ++ [6] : List Nat) ∧
     pipes_find ⟨fun _ => 5, fun _ => 7, 1⟩ 6 = .error ERROR_NOT_FOUND) ∧
    (processSpawnEntry 0 ⟨⟨fun _ => 5, fun _ => 7, 1⟩, [], 0⟩
        ⟨0, 1, List.replicate 3201 5 ++ [6]⟩ (0, 0)).1 =
      .error ERROR_NO_SPACE_FOR_PIPES ∧
    ERROR_NO_SPACE_FOR_PIPES ≠ ERROR_NOT_FOUND := by
  refine ⟨⟨List.mem_append_right _ (by simp), by rfl⟩, ?_, by decide⟩
  have hfind5 : pipes_find ⟨fun _ => 5, fun _ => 7, 1⟩ 5 = .ok 7 := by rfl
  have hsplit : (List.replicate 3201 5 ++ [6] : List Nat) =
      List.replicate 3200 5 ++ (5 :: [6]) := by
    rw [show (3201 : Nat) = 3200 + 1 from rfl, List.replicate_succ',
      List.append_assoc]
    exact congrArg (List.replicate 3200 5 ++ ·) rfl
  obtain ⟨passed2, heq, hused⟩ := resolvePipes_replicate_ok
    ⟨fun _ => 5, fun _ => 7, 1⟩ 5 7 hfind5 3200 (5 :: [6])
    (pipes_init pipesScratch) (by decide)
  have hfull : MAX_PIPE_COUNT ≤ passed2.used := by
    rw [hused]; decide
  have hadd : pipes_add passed2 5 7 = .error ERROR_NO_SPACE_FOR_PIPES := by
    simp [pipes_add, hfull]
  have hres : resolvePipes ⟨fun _ => 5, fun _ => 7, 1⟩
      (List.replicate 3201 5 ++ [6]) (pipes_init pipesScratch) =
      .error ERROR_NO_SPACE_FOR_PIPES := by
    rw [hsplit, heq]
    simp [resolvePipes, hfind5, hadd]
  have hcapn : ¬ (MAX_SPAWNED_VMS ≤ (0 : Nat)) := by decide
  have hmain : processSpawnEntry 0 ⟨⟨fun _ => 5, fun _ => 7, 1⟩, [], 0⟩
      ⟨0, 1, List.replicate 3201 5 ++ [6]⟩ (0, 0) =
      (.error ERROR_NO_SPACE_FOR_PIPES, []) := by
    simp only [processSpawnEntry, hres, hcapn, eq_self_iff_true, if_true, if_false]
  rw [hmain]

/-! ### Spawned-process argv handling (C5, `spawn_dag.c` lines 108-133) -/

/-- Loop over the spawn entry pipe indices (lines 118-133): the i-th
visible-pipe index is bound, via `pipes_add`, to the `uint64_t` read from
bytes `[i*8, i*8+8)` of the decoded second argument. -/
def bindInheritedLoop (decoded : List Nat) :
    List Nat → Nat → pipes_t → Except Nat pipes_t
  | [], _, current => .ok current
  | pipe_index :: rest, i, current =>
    match pipes_add current pipe_index
        (u64_from_le ((decoded.drop (i * 8)).take 8)) with
    | .error e => .error e
    | .ok current2 => bindInheritedLoop decoded rest (i + 1) current2

/-- Handling of the second argument of a spawned process (lines 110-133):
decode `argv[1]` in place, require the decoded byte length to equal `8 *`
the number of visible-pipe indices of its spawn entry (`ERROR_ARGV`
otherwise), then bind each index positionally. -/
def processInheritedPipes (argv1 : List Nat) (visiblePipes : List Nat)
    (current : pipes_t) : Except Nat pipes_t :=
  match ee_decode_char_string_in_place argv1 with
  | .error e => .error e
  | .ok decoded =>
    if decoded.length ≠ visiblePipes.length * 8 then .error ERROR_ARGV
    else bindInheritedLoop decoded visiblePipes 0 current

theorem bindInheritedLoop_spec (decoded : List Nat) :
    ∀ (vp : List Nat) (i : Nat) (cur : pipes_t),
      cur.used + vp.length ≤ MAX_PIPE_COUNT →
      ∃ cur2, bindInheritedLoop decoded vp i cur = .ok cur2 ∧
        cur2.used = cur.used + vp.length ∧
        (∀ j < cur.used, cur2.indices j = cur.indices j ∧ cur2.ids j = cur.ids j) ∧
        (∀ N, N < vp.length →
          cur2.indices (cur.used + N) = vp.getD N 0 ∧
          cur2.ids (cur.used + N) =
            u64_from_le ((decoded.drop ((i + N) * 8)).take 8)) := by
  intro vp
  induction vp with
  | nil =>
    intro i cur _
    exact ⟨cur, by simp [bindInheritedLoop], by simp, fun j _ => ⟨rfl, rfl⟩,
      fun N hN => absurd hN (by simp)⟩
  | cons idx rest ih =>
    intro i cur h
    have hlt : ¬ MAX_PIPE_COUNT ≤ cur.used := by simp at h; omega
    have hadd : pipes_add cur idx (u64_from_le ((decoded.drop (i * 8)).take 8)) =
        .ok { indices := fun j => if j = cur.used then idx else cur.indices j,
              ids := fun j => if j = cur.used
                  then u64_from_le ((decoded.drop (i * 8)).take 8)
                else if j = cur.used + 1 then 0 else cur.ids j,
              used := cur.used + 1 } := by
      simp [pipes_add, hlt]
    obtain ⟨cur2, heq, hused, hpres, hslots⟩ := ih (i + 1)
      { indices := fun j => if j = cur.used then idx else cur.indices j,
        ids := fun j => if j = cur.used
            then u64_from_le ((decoded.drop (i * 8)).take 8)
          else if j = cur.used + 1 then 0 else cur.ids j,
        used := cur.used + 1 }
      (by simp at h ⊢; omega)
    simp only at hused hpres hslots
    refine ⟨cur2, by simp [bindInheritedLoop, hadd, heq], by simp [hused]; omega,
      ?_, ?_⟩
    · intro j hj
      obtain ⟨h1, h2⟩ := hpres j (by omega)
      constructor
      · rw [h1]; simp [show j ≠ cur.used by omega]
      · rw [h2]; simp [show j ≠ cur.used by omega, show j ≠ cur.used + 1 by omega]
    · intro N hN
      match N with
      | 0 =>
        obtain ⟨h1, h2⟩ := hpres cur.used (by omega)
        constructor
        · rw [Nat.add_zero, h1]; simp
        · rw [Nat.add_zero, h2]; simp
      | N + 1 =>
        obtain ⟨h1, h2⟩ := hslots N (by simpa using hN)
        constructor
        · rw [show cur.used + (N + 1) = cur.used + 1 + N by omega, h1]
          simp
        · rw [show cur.used + (N + 1) = cur.used + 1 + N by omega, h2,
            show i + 1 + N = i + (N + 1) by omega]

/-- C5: after in-place decoding of the second argument, the executor
fails with `ERROR_ARGV` whenever the decoded byte length differs from 8
times the number of visible-pipe entries of its spawn entry; with the
length matching (and the registry capacity sufficient), binding succeeds
and for every position N the Nth 8-byte little-endian value of the
decoded second argument is registered under the Nth visible-pipe index. -/
theorem inherited_pipes_binding (argv1 vp : List Nat) (cur : pipes_t) :
    (∀ decoded, ee_decode_char_string_in_place argv1 = .ok decoded →
       decoded.length ≠ vp.length * 8 →
       processInheritedPipes argv1 vp cur = .error ERROR_ARGV) ∧
    (∀ decoded, ee_decode_char_string_in_place argv1 = .ok decoded →
       decoded.length = vp.length * 8 →
       cur.used + vp.length ≤ MAX_PIPE_COUNT →
       ∃ cur2, processInheritedPipes argv1 vp cur = .ok cur2 ∧
         cur2.used = cur.used + vp.length ∧
         ∀ N, N < vp.length →
           cur2.indices (cur.used + N) = vp.getD N 0 ∧
           cur2.ids (cur.used + N) =
             u64_from_le ((decoded.drop (N * 8)).take 8)) := by
  constructor
  · intro decoded hdec hne
    simp [processInheritedPipes, hdec, hne]
  · intro decoded hdec hlen hcap
    obtain ⟨cur2, heq, hused, _, hslots⟩ := bindInheritedLoop_spec decoded vp 0 cur hcap
    refine ⟨cur2, ?_, hused, ?_⟩
    · simp [processInheritedPipes, hdec, hlen, heq]
    · intro N hN
      obtain ⟨h1, h2⟩ := hslots N hN
      exact ⟨h1, by simpa using h2⟩

theorem inherited_pipes_binding_witness :
    (ee_decode_char_string_in_place
        [5, 254, 255, 254, 255, 254, 255, 254, 255, 254, 255, 254, 255, 254, 255] =
      .ok [5, 0, 0, 0, 0, 0, 0, 0] ∧
     ([5, 0, 0, 0, 0, 0, 0, 0] : List Nat).length = [9].length * 8 ∧
     pipesScratch.used + [9].length ≤ MAX_PIPE_COUNT) ∧
    (∃ cur2, processInheritedPipes
        [5, 254, 255, 254, 255, 254, 255, 254, 255, 254, 255, 254, 255, 254, 255]
        [9] pipesScratch = .ok cur2 ∧
      cur2.used = pipesScratch.used + [9].length ∧
      ∀ N, N < [9].length →
        cur2.indices (pipesScratch.used + N) = [9].getD N 0 ∧
        cur2.ids (pipesScratch.used + N) =
          u64_from_le ((([5, 0, 0, 0, 0, 0, 0, 0] : List Nat).drop (N * 8)).take 8)) :=
  ⟨⟨by rfl, by decide, by decide⟩,
   (inherited_pipes_binding
      [5, 254, 255, 254, 255, 254, 255, 254, 255, 254, 255, 254, 255, 254, 255]
      [9] pipesScratch).2 [5, 0, 0, 0, 0, 0, 0, 0] (by rfl) (by decide) (by decide)⟩

/-! ### Transfer phase (`spawn_dag.c` lines 252-324)

`ckb_write` / `ckb_read` are oracles indexed by call number; a response
reports at most the requested byte count, so delivered counts are
truncated to the remaining bytes.  Issued syscalls are traced. -/

inductive IOEvent where
  | writeCall (pipe_id : Nat) (requested : Nat)
  | readCall (pipe_id : Nat) (requested : Nat)
deriving Repr, DecidableEq

def IOEvent.isWriteCall : IOEvent → Bool
  | .writeCall _ _ => true
  | .readCall _ _ => false

/-- Write loop (lines 279-290): request the remaining count, propagate a
non-zero return code, treat a zero-byte write as `ERROR_PIPE_CLOSED`,
else advance by the written count. -/
def writeLoop (pipe_id : Nat) (size : Nat) (oracle : Nat → Nat × Nat)
    (k written : Nat) : Nat × List IOEvent :=
  if hw : written < size then
    if (oracle k).1 ≠ 0 then ((oracle k).1, [.writeCall pipe_id (size - written)])
    else if hl : min (oracle k).2 (size - written) = 0 then
      (ERROR_PIPE_CLOSED, [.writeCall pipe_id (size - written)])
    else
      let res := writeLoop pipe_id size oracle (k + 1)
        (written + min (oracle k).2 (size - written))
      (res.1, .writeCall pipe_id (size - written) :: res.2)
  else (0, [])
termination_by size - written
decreasing_by
  have h1 : 0 < min (oracle k).2 (size - written) := Nat.pos_of_ne_zero hl
  omega

/-- Read loop (lines 306-322): request the remaining count, propagate a
non-zero return code, treat a zero-byte read as `ERROR_PIPE_CLOSED`,
compare the received chunk with the payload slice at the current offset
(`memcmp`), fail with `ERROR_CORRUPTED_DATA` on mismatch, else advance by
the received count. -/
def readLoop (pipe_id : Nat) (payload : List Nat) (oracle : Nat → Nat × List Nat)
    (k readSoFar : Nat) : Nat × List IOEvent :=
  if hr : readSoFar < payload.length then
    if (oracle k).1 ≠ 0 then
      ((oracle k).1, [.readCall pipe_id (payload.length - readSoFar)])
    else if hl : ((oracle k).2.take (payload.length - readSoFar)).length = 0 then
      (ERROR_PIPE_CLOSED, [.readCall pipe_id (payload.length - readSoFar)])
    else if (payload.drop readSoFar).take
          ((oracle k).2.take (payload.length - readSoFar)).length ≠
        (oracle k).2.take (payload.length - readSoFar) then
      (ERROR_CORRUPTED_DATA, [.readCall pipe_id (payload.length - readSoFar)])
    else
      let res := readLoop pipe_id payload oracle (k + 1)
        (readSoFar + ((oracle k).2.take (payload.length - readSoFar)).length)
      (res.1, .readCall pipe_id (payload.length - readSoFar) :: res.2)
  else (0, [])
termination_by payload.length - readSoFar
decreasing_by
  have h1 : 0 < ((oracle k).2.take (payload.length - readSoFar)).length :=
    Nat.pos_of_ne_zero hl
  omega

/-- Sender branch of a write entry (lines 264-290). -/
def writeBranch (current : pipes_t) (e : WriteEntry) (oracle : Nat → Nat × Nat) :
    Nat × List IOEvent :=
  match pipes_find current e.from_pipe with
  | .error r => (r, [])
  | .ok pipe_id => writeLoop pipe_id e.data.length oracle 0 0

/-- Receiver branch of a write entry (lines 291-323). -/
def readBranch (current : pipes_t) (e : WriteEntry) (oracle : Nat → Nat × List Nat) :
    Nat × List IOEvent :=
  match pipes_find current e.to_pipe with
  | .error r => (r, [])
  | .ok pipe_id => readLoop pipe_id e.data oracle 0 0

/-- Processing of one entry of `Data.writes` (lines 254-324): an
if/else-if dispatch in which the sender branch takes precedence. -/
def processWriteEntry (vm_index : Nat) (current : pipes_t) (e : WriteEntry)
    (writeOracle : Nat → Nat × Nat) (readOracle : Nat → Nat × List Nat) :
    Nat × List IOEvent :=
  if e.fromVm = vm_index then writeBranch current e writeOracle
  else if e.toVm = vm_index then readBranch current e readOracle
  else (0, [])

theorem writeLoop_events (pipe_id size : Nat) (oracle : Nat → Nat × Nat) :
    ∀ k written, ∀ ev ∈ (writeLoop pipe_id size oracle k written).2,
      ev.isWriteCall = true := by
  intro k written
  induction k, written using writeLoop.induct pipe_id size oracle with
  | case1 k written hw hret =>
    intro ev hev
    rw [writeLoop] at hev
    simp [hw, hret] at hev
    simp [hev, IOEvent.isWriteCall]
  | case2 k written hw hret hl =>
    intro ev hev
    rw [writeLoop] at hev
    simp [hw, hret, hl] at hev
    simp [hev, IOEvent.isWriteCall]
  | case3 k written hw hret hl ih =>
    intro ev hev
    rw [writeLoop] at hev
    simp [hw, hret, hl] at hev
    rcases hev with rfl | hev
    · simp [IOEvent.isWriteCall]
    · exact ih ev hev
  | case4 k written hw =>
    intro ev hev
    rw [writeLoop] at hev
    simp [hw] at hev

/-- C10: for a write entry whose `fromNode` and `toNode` both equal the
running node, only the sender path executes: the result is that of the
write branch (independent of the read oracle) and every issued syscall
is a write, the read-and-verify on `toPipe` being skipped entirely. -/
theorem write_branch_precedence (vm : Nat) (current : pipes_t) (e : WriteEntry)
    (wOracle : Nat → Nat × Nat) (rOracle : Nat → Nat × List Nat)
    (hfrom : e.fromVm = vm) (hto : e.toVm = vm) :
    processWriteEntry vm current e wOracle rOracle =
      writeBranch current e wOracle ∧
    ∀ ev ∈ (processWriteEntry vm current e wOracle rOracle).2,
      ev.isWriteCall = true := by
  have h1 : processWriteEntry vm current e wOracle rOracle =
      writeBranch current e wOracle := by
    simp [processWriteEntry, hfrom]
  refine ⟨h1, ?_⟩
  rw [h1]
  cases hfind : pipes_find current e.from_pipe with
  | error r => simp [writeBranch, hfind]
  | ok pipe_id =>
    simp only [writeBranch, hfind]
    exact writeLoop_events pipe_id e.data.length wOracle 0 0

theorem write_branch_precedence_witness :
    ((⟨(0 : Nat), 1, 0, 2, [7]⟩ : WriteEntry).fromVm = 0 ∧
     (⟨(0 : Nat), 1, 0, 2, [7]⟩ : WriteEntry).toVm = 0) ∧
    (processWriteEntry 0 pipesScratch ⟨0, 1, 0, 2, [7]⟩
        (fun _ => (0, 0)) (fun _ => (0, [])) =
      writeBranch pipesScratch ⟨0, 1, 0, 2, [7]⟩ (fun _ => (0, 0)) ∧
     ∀ ev ∈ (processWriteEntry 0 pipesScratch ⟨0, 1, 0, 2, [7]⟩
        (fun _ => (0, 0)) (fun _ => (0, []))).2, ev.isWriteCall = true) :=
  ⟨⟨rfl, rfl⟩,
   write_branch_precedence 0 pipesScratch ⟨0, 1, 0, 2, [7]⟩
     (fun _ => (0, 0)) (fun _ => (0, [])) rfl rfl⟩

/-! ### The receiver path: claim C2

The claim describes the receiver as filling the whole `len(payload)`
buffer first and comparing only after the read completes.  The code
compares each received chunk as it arrives (line 318 sits inside the read
loop), which is observably different: an early mismatching chunk yields
`ERROR_CORRUPTED_DATA` without the remaining bytes ever being read. -/

/-- Modelled from the claim text of C2 (read-until-filled, then compare),
for comparison with the code: loop reading into an accumulator until
`size` bytes are received, propagating syscall errors and zero-read pipe
closure. -/
def readFillLoop (size : Nat) (oracle : Nat → Nat × List Nat)
    (k : Nat) (acc : List Nat) : Except Nat (List Nat) :=
  if h : acc.length < size then
    if (oracle k).1 ≠ 0 then .error (oracle k).1
    else if hl : ((oracle k).2.take (size - acc.length)).length = 0 then
      .error ERROR_PIPE_CLOSED
    else readFillLoop size oracle (k + 1) (acc ++ (oracle k).2.take (size - acc.length))
  else .ok acc
termination_by size - acc.length
decreasing_by
  have h1 : 0 < ((oracle k).2.take (size - acc.length)).length :=
    Nat.pos_of_ne_zero hl
  simp only [List.length_append]
  omega

/-- Modelled from the claim text of C2: the receiver result if the whole
buffer were filled first and the byte-for-byte comparison performed only
immediately after the read completes. -/
def readThenCompareClaim (payload : List Nat) (oracle : Nat → Nat × List Nat) : Nat :=
  match readFillLoop payload.length oracle 0 [] with
  | .error e => e
  | .ok received => if received ≠ payload then ERROR_CORRUPTED_DATA else 0

/-- Counterexample to C2 as stated: payload `[1, 2]`; the pipe delivers
one mismatching byte `99` and is then closed.  The code stops at the
first chunk with `ERROR_CORRUPTED_DATA` after a single read syscall,
whereas the claimed read-until-filled-then-compare behaviour would hit
the zero-byte read first and give `ERROR_PIPE_CLOSED`. -/
theorem read_verify_cex :
    processWriteEntry 2 ⟨fun _ => 3, fun _ => 11, 1⟩ ⟨1, 0, 2, 3, [1, 2]⟩
        (fun _ => (0, 0)) (fun j => if j = 0 then (0, [99]) else (0, [])) =
      (ERROR_CORRUPTED_DATA, [.readCall 11 2]) ∧
    readThenCompareClaim [1, 2] (fun j => if j = 0 then (0, [99]) else (0, [])) =
      ERROR_PIPE_CLOSED ∧
    ERROR_CORRUPTED_DATA ≠ ERROR_PIPE_CLOSED := by
  refine ⟨?_, ?_, by decide⟩
  · have hfind : pipes_find ⟨fun _ => 3, fun _ => 11, 1⟩ 3 = .ok 11 := by rfl
    have hloop : readLoop 11 [1, 2] (fun j => if j = 0 then (0, [99]) else (0, []))
        0 0 = (ERROR_CORRUPTED_DATA, [.readCall 11 2]) := by
      rw [readLoop]
      norm_num
    simp [processWriteEntry, readBranch, hfind, hloop]
  · have h1 : readFillLoop 2 (fun j => if j = 0 then (0, [99]) else (0, [])) 0 [] =
        .error ERROR_PIPE_CLOSED := by
      rw [readFillLoop]
      norm_num
      rw [readFillLoop]
      norm_num
    simp [readThenCompareClaim, h1]

/-- Total bytes received after the first `n` read responses, each
truncated to the then-remaining byte count. -/
def recvTotal (payload : List Nat) (oracle : Nat → Nat × List Nat) : Nat → Nat
  | 0 => 0
  | n + 1 =>
    recvTotal payload oracle n +
      ((oracle n).2.take (payload.length - recvTotal payload oracle n)).length

/-- The chunk the `m`-th read call delivers. -/
def chunkAt (payload : List Nat) (oracle : Nat → Nat × List Nat) (m : Nat) : List Nat :=
  (oracle m).2.take (payload.length - recvTotal payload oracle m)

/-- The first `n` read responses are clean: each arrives while the buffer
is still unfilled, with return code 0, nonempty, and matching the payload
slice at its offset. -/
def cleanThrough (payload : List Nat) (oracle : Nat → Nat × List Nat) (n : Nat) : Prop :=
  ∀ m < n, recvTotal payload oracle m < payload.length ∧
    (oracle m).1 = 0 ∧ chunkAt payload oracle m ≠ [] ∧
    (payload.drop (recvTotal payload oracle m)).take (chunkAt payload oracle m).length =
      chunkAt payload oracle m

theorem readLoop_advance (pipe_id : Nat) (payload : List Nat)
    (oracle : Nat → Nat × List Nat) (n : Nat) (hc : cleanThrough payload oracle n) :
    readLoop pipe_id payload oracle 0 0 =
      ((readLoop pipe_id payload oracle n (recvTotal payload oracle n)).1,
       ((List.range n).map fun m =>
          IOEvent.readCall pipe_id (payload.length - recvTotal payload oracle m)) ++
         (readLoop pipe_id payload oracle n (recvTotal payload oracle n)).2) := by
  induction n with
  | zero => simp [recvTotal]
  | succ n ih =>
    have hcn : cleanThrough payload oracle n := fun m hm => hc m (by omega)
    obtain ⟨hlt, hret, hne, hmatch⟩ := hc n (by omega)
    have hlne : ¬ ((oracle n).2.take (payload.length - recvTotal payload oracle n)).length = 0 := by
      simpa [chunkAt, List.length_eq_zero] using hne
    have hunf : readLoop pipe_id payload oracle n (recvTotal payload oracle n) =
        ((readLoop pipe_id payload oracle (n + 1) (recvTotal payload oracle (n + 1))).1,
         .readCall pipe_id (payload.length - recvTotal payload oracle n) ::
           (readLoop pipe_id payload oracle (n + 1) (recvTotal payload oracle (n + 1))).2) := by
      conv_lhs => rw [readLoop]
      simp only [dif_pos hlt, hret, ne_eq, not_true_eq_false, if_false,
        dif_neg hlne, ite_not]
      rw [if_pos]
      · simp [recvTotal]
      · simpa [chunkAt] using hmatch
    rw [ih hcn, hunf]
    simp [List.range_succ]

/-- C2 (amended): the receiver resolves `toPipe`, then reads in a loop
requesting the remaining bytes; a non-zero return code is propagated and
a zero-byte read yields `ERROR_PIPE_CLOSED`; each received chunk is
compared against the payload slice at its offset immediately as it
arrives, and the first mismatching chunk makes the loop return
`ERROR_CORRUPTED_DATA` at once — possibly before `len(payload)` bytes
have been received; only when all chunks match and the buffer fills does
the loop return 0. -/
theorem read_verify_chunkwise (pipe_id : Nat) (payload : List Nat)
    (oracle : Nat → Nat × List Nat) (n : Nat) (hc : cleanThrough payload oracle n) :
    (recvTotal payload oracle n = payload.length →
       readLoop pipe_id payload oracle 0 0 =
         (0, (List.range n).map fun m =>
           IOEvent.readCall pipe_id (payload.length - recvTotal payload oracle m))) ∧
    (recvTotal payload oracle n < payload.length → (oracle n).1 ≠ 0 →
       readLoop pipe_id payload oracle 0 0 =
         ((oracle n).1, (List.range (n + 1)).map fun m =>
           IOEvent.readCall pipe_id (payload.length - recvTotal payload oracle m))) ∧
    (recvTotal payload oracle n < payload.length → (oracle n).1 = 0 →
       chunkAt payload oracle n = [] →
       readLoop pipe_id payload oracle 0 0 =
         (ERROR_PIPE_CLOSED, (List.range (n + 1)).map fun m =>
           IOEvent.readCall pipe_id (payload.length - recvTotal payload oracle m))) ∧
    (recvTotal payload oracle n < payload.length → (oracle n).1 = 0 →
       chunkAt payload oracle n ≠ [] →
       (payload.drop (recvTotal payload oracle n)).take (chunkAt payload oracle n).length ≠
         chunkAt payload oracle n →
       readLoop pipe_id payload oracle 0 0 =
         (ERROR_CORRUPTED_DATA, (List.range (n + 1)).map fun m =>
           IOEvent.readCall pipe_id (payload.length - recvTotal payload oracle m))) ∧
    (∀ vm current (e : WriteEntry) wOracle, e.fromVm ≠ vm → e.toVm = vm →
       pipes_find current e.to_pipe = .ok pipe_id →
       processWriteEntry vm current e wOracle oracle =
         readLoop pipe_id e.data oracle 0 0) := by
  refine ⟨?_, ?_, ?_, ?_, ?_⟩
  · intro hfull
    rw [readLoop_advance pipe_id payload oracle n hc]
    rw [show readLoop pipe_id payload oracle n (recvTotal payload oracle n) = (0, []) by
      rw [readLoop]; simp [hfull]]
    simp
  · intro hlt hret
    rw [readLoop_advance pipe_id payload oracle n hc]
    rw [show readLoop pipe_id payload oracle n (recvTotal payload oracle n) =
        ((oracle n).1, [.readCall pipe_id (payload.length - recvTotal payload oracle n)]) by
      rw [readLoop]; simp [dif_pos hlt, hret]]
    simp [List.range_succ]
  · intro hlt hret hempty
    have hl0 : ((oracle n).2.take (payload.length - recvTotal payload oracle n)).length = 0 := by
      simpa [chunkAt, List.length_eq_zero] using hempty
    rw [readLoop_advance pipe_id payload oracle n hc]
    rw [show readLoop pipe_id payload oracle n (recvTotal payload oracle n) =
        (ERROR_PIPE_CLOSED, [.readCall pipe_id (payload.length - recvTotal payload oracle n)]) by
      rw [readLoop]; simp [dif_pos hlt, hret, hl0]]
    simp [List.range_succ]
  · intro hlt hret hne hmis
    have hlne : ¬ ((oracle n).2.take (payload.length - recvTotal payload oracle n)).length = 0 := by
      simpa [chunkAt, List.length_eq_zero] using hne
    rw [readLoop_advance pipe_id payload oracle n hc]
    rw [show readLoop pipe_id payload oracle n (recvTotal payload oracle n) =
        (ERROR_CORRUPTED_DATA, [.readCall pipe_id (payload.length - recvTotal payload oracle n)]) by
      rw [readLoop]
      simp only [dif_pos hlt, hret, ne_eq, not_true_eq_false, if_false, dif_neg hlne]
      rw [if_pos]
      simpa [chunkAt] using hmis]
    simp [List.range_succ]
  · intro vm current e wOracle hfromne hto hfind
    simp [processWriteEntry, hfromne, hto, readBranch, hfind]

theorem read_verify_chunkwise_witness :
    cleanThrough [1, 2] (fun j => if j = 0 then (0, [1]) else if j = 1 then (0, [2]) else (0, [])) 2 ∧
    recvTotal [1, 2] (fun j => if j = 0 then (0, [1]) else if j = 1 then (0, [2]) else (0, [])) 2 = 2 ∧
    readLoop 11 [1, 2]
        (fun j => if j = 0 then (0, [1]) else if j = 1 then (0, [2]) else (0, [])) 0 0 =
      (0, (List.range 2).map fun m =>
        IOEvent.readCall 11 (([1, 2] : List Nat).length -
          recvTotal [1, 2] (fun j => if j = 0 then (0, [1]) else if j = 1 then (0, [2]) else (0, [])) m)) := by
  refine ⟨by unfold cleanThrough; decide, by decide, ?_⟩
  exact (read_verify_chunkwise 11 [1, 2]
    (fun j => if j = 0 then (0, [1]) else if j = 1 then (0, [2]) else (0, [])) 2
    (by unfold cleanThrough; decide)).1 (by decide)

/-! ### Join phase (`spawn_dag.c` lines 326-339) -/

/-- Join loop: iteration `i` waits on `spawned_vms[j]` with
`j = spawned_count - i - 1`; embedded with the remaining iteration count
as structural fuel, so the call with fuel `k + 1` handles array position
`j = k`.  `oracle j` is the `ckb_wait` result for the child at insertion
position `j`: the syscall return code and the `int8_t` exit code written
back.  A non-zero return code, then a non-zero exit code, is returned
immediately; the trace lists the process ids actually waited on. -/
def joinLoop (spawned : List Nat) (oracle : Nat → Nat × Int) : Nat → Int × List Nat
  | 0 => (0, [])
  | k + 1 =>
    if (oracle k).1 ≠ 0 then (((oracle k).1 : Int), [spawned.getD k 0])
    else if (oracle k).2 ≠ 0 then ((oracle k).2, [spawned.getD k 0])
    else
      let res := joinLoop spawned oracle k
      (res.1, spawned.getD k 0 :: res.2)

/-- The whole join phase over the `spawned_count` recorded children. -/
def joinSpawned (spawned : List Nat) (oracle : Nat → Nat × Int) : Int × List Nat :=
  joinLoop spawned oracle spawned.length

theorem joinLoop_advance (spawned : List Nat) (oracle : Nat → Nat × Int) :
    ∀ m, m ≤ spawned.length →
      (∀ i < m, oracle (spawned.length - 1 - i) = (0, 0)) →
      joinSpawned spawned oracle =
        ((joinLoop spawned oracle (spawned.length - m)).1,
         ((List.range m).map fun i => spawned.getD (spawned.length - 1 - i) 0) ++
           (joinLoop spawned oracle (spawned.length - m)).2) := by
  intro m
  induction m with
  | zero => intro _ _; simp [joinSpawned]
  | succ m ih =>
    intro hm hclean
    rw [ih (by omega) fun i hi => hclean i (by omega)]
    have hk : spawned.length - m = (spawned.length - (m + 1)) + 1 := by omega
    have hpos : spawned.length - 1 - m = spawned.length - (m + 1) := by omega
    have hcl := hclean m (by omega)
    rw [hk, joinLoop]
    rw [hpos] at hcl
    simp only [hcl]
    norm_num [List.range_succ, hpos]

/-- C6: the join phase waits on the spawned children in reverse insertion
order of the `spawned_vms` set (last spawned first); with all waits
clean it returns 0 having waited on every child in reverse order, and the
first wait returning an error or a non-zero exit status makes the phase
return that error resp. exit status immediately, the trace ending there
— no remaining (earlier-spawned) child is waited on. -/
theorem join_reverse_fail_fast (spawned : List Nat) (oracle : Nat → Nat × Int) :
    ((∀ j < spawned.length, oracle j = (0, 0)) →
       joinSpawned spawned oracle = (0, spawned.reverse)) ∧
    (∀ m < spawned.length,
       (∀ i < m, oracle (spawned.length - 1 - i) = (0, 0)) →
       (oracle (spawned.length - 1 - m)).1 ≠ 0 ∨
         (oracle (spawned.length - 1 - m)).2 ≠ 0 →
       joinSpawned spawned oracle =
         ((if (oracle (spawned.length - 1 - m)).1 ≠ 0 then
             ((oracle (spawned.length - 1 - m)).1 : Int)
           else (oracle (spawned.length - 1 - m)).2),
          (List.range (m + 1)).map fun i =>
            spawned.getD (spawned.length - 1 - i) 0)) := by
  constructor
  · intro hclean
    have hrev : (List.range spawned.length).map
        (fun i => spawned.getD (spawned.length - 1 - i) 0) = spawned.reverse := by
      apply List.ext_getElem
      · simp
      · intro i h1 h2
        have hi : i < spawned.length := by simpa using h1
        simp only [List.getElem_map, List.getElem_range, List.getElem_reverse]
        exact List.getD_eq_getElem _ _ (by omega)
    rw [joinLoop_advance spawned oracle spawned.length (by omega)
      (fun i hi => hclean _ (by omega))]
    simp only [Nat.sub_self]
    simp [joinLoop]
    simpa using hrev
  · intro m hm hclean hfail
    rw [joinLoop_advance spawned oracle m (by omega) hclean]
    have hk : spawned.length - m = (spawned.length - 1 - m) + 1 := by omega
    rw [hk, joinLoop]
    rcases Classical.em ((oracle (spawned.length - 1 - m)).1 ≠ 0) with hr | hr
    · simp [hr, List.range_succ]
    · have hr0 : (oracle (spawned.length - 1 - m)).1 = 0 := by
        by_contra hc; exact hr hc
      have he : (oracle (spawned.length - 1 - m)).2 ≠ 0 := by
        rcases hfail with h | h
        · exact absurd h hr
        · exact h
      simp [hr0, he, List.range_succ]

theorem join_reverse_fail_fast_witness :
    ((1 : Nat) < ([10, 20, 30] : List Nat).length ∧
     (∀ i < 1, (fun j => if j = 2 then ((0 : Nat), (0 : Int))
         else if j = 1 then (0, 7) else (0, 0)) (([10, 20, 30] : List Nat).length - 1 - i) = (0, 0)) ∧
     ((fun j => if j = 2 then ((0 : Nat), (0 : Int))
         else if j = 1 then (0, 7) else (0, 0)) (([10, 20, 30] : List Nat).length - 1 - 1)).2 ≠ 0) ∧
    joinSpawned [10, 20, 30]
        (fun j => if j = 2 then ((0 : Nat), (0 : Int)) else if j = 1 then (0, 7) else (0, 0)) =
      ((if ((fun j => if j = 2 then ((0 : Nat), (0 : Int))
            else if j = 1 then (0, 7) else (0, 0)) (([10, 20, 30] : List Nat).length - 1 - 1)).1 ≠ 0 then
          (((fun j => if j = 2 then ((0 : Nat), (0 : Int))
            else if j = 1 then (0, 7) else (0, 0)) (([10, 20, 30] : List Nat).length - 1 - 1)).1 : Int)
        else ((fun j => if j = 2 then ((0 : Nat), (0 : Int))
            else if j = 1 then (0, 7) else (0, 0)) (([10, 20, 30] : List Nat).length - 1 - 1)).2),
       (List.range (1 + 1)).map fun i => ([10, 20, 30] : List Nat).getD (([10, 20, 30] : List Nat).length - 1 - i) 0) :=
  ⟨⟨by decide, by decide, by decide⟩,
   (join_reverse_fail_fast [10, 20, 30]
       (fun j => if j = 2 then ((0 : Nat), (0 : Int)) else if j = 1 then (0, 7) else (0, 0))).2
     1 (by decide) (by decide) (Or.inr (by decide))⟩

end SpawnDag
